import Mathlib

/-!
Verification of the dialog state manager (`src/dialog/state.js`).

The store keeps one row per state id in the `dialog_sessions` table; the
manager exposes `getState`, `setState` and `deleteState`.  The embedding
below models the database as a list of rows, the JavaScript `JSON.stringify`
and `JSON.parse` builtins as an executable codec on a JSON value type, and
each manager operation as a pure function mirroring the source.
-/

namespace DialogState

/-- A JSON document value, the shape of the JavaScript values the state
manager stores.  Numbers are modelled as integers. -/
inductive JVal where
  | null : JVal
  | bool (b : Bool) : JVal
  | num (n : Int) : JVal
  | str (s : String) : JVal
  | arr (elems : List JVal) : JVal
  | obj (fields : List (String × JVal)) : JVal

/-- Models lodash `_.isPlainObject`: true exactly for object-shaped values,
false for null, scalars and arrays. -/
def JVal.isPlainObject : JVal → Bool
  | .obj _ => true
  | _ => false

/-- Decimal digit characters of a natural number, with explicit fuel so the
definition is structurally recursive and evaluates by `rfl`. -/
def natCharsAux : Nat → Nat → List Char
  | 0, _ => []
  | fuel + 1, n =>
    if n < 10 then [Char.ofNat (48 + n)]
    else natCharsAux fuel (n / 10) ++ [Char.ofNat (48 + n % 10)]

/-- Decimal digit characters of a natural number (`n + 1` fuel always
suffices since a number has at most `n + 1` digits). -/
def natChars (n : Nat) : List Char :=
  natCharsAux (n + 1) n

/-- Value of a list of decimal digit characters. -/
def digitsToNat (ds : List Char) : Nat :=
  ds.foldl (fun acc c => acc * 10 + (c.toNat - 48)) 0

/-- Parses a maximal nonempty run of decimal digits from the front of the
input, returning its value and the remaining characters. -/
def parseNat (cs : List Char) : Option (Nat × List Char) :=
  let ds := cs.takeWhile (fun c => c.isDigit)
  if ds.isEmpty then none
  else some (digitsToNat ds, cs.dropWhile (fun c => c.isDigit))

/-- JSON string-body escaping: backslash-escapes the quote and backslash
characters, leaving every other character in place. -/
def escList : List Char → List Char
  | [] => []
  | c :: cs => (if c = '"' ∨ c = '\\' then ['\\', c] else [c]) ++ escList cs

/-- Parses a JSON string body up to (and consuming) the closing quote; a
backslash escapes the character that follows it. -/
def parseStrBody : List Char → Option (List Char × List Char)
  | [] => none
  | c :: cs =>
    if c = '"' then some ([], cs)
    else if c = '\\' then
      match cs with
      | [] => none
      | e :: cs2 => (parseStrBody cs2).map (fun p => (e :: p.1, p.2))
    else (parseStrBody cs).map (fun p => (c :: p.1, p.2))

/-- Consumes an expected literal run of characters from the input. -/
def dropLit : List Char → List Char → Option (List Char)
  | [], cs => some cs
  | _ :: _, [] => none
  | l :: ls, c :: cs => if c = l then dropLit ls cs else none

mutual

/-- Models `JSON.stringify` on a JSON value, producing its character list.
Arrays and objects are emitted without whitespace, matching the builtin. -/
def stringifyVal : JVal → List Char
  | .null => "null".data
  | .bool true => "true".data
  | .bool false => "false".data
  | .num n => if n < 0 then '-' :: natChars n.natAbs else natChars n.toNat
  | .str s => '"' :: (escList s.data ++ ['"'])
  | .arr xs => '[' :: stringifyItems xs
  | .obj fs => '{' :: stringifyFields fs

/-- Serializes the elements of an array, comma separated, including the
closing bracket. -/
def stringifyItems : List JVal → List Char
  | [] => [']']
  | [v] => stringifyVal v ++ [']']
  | v :: vs => stringifyVal v ++ ',' :: stringifyItems vs

/-- Serializes the fields of an object, comma separated, including the
closing brace. -/
def stringifyFields : List (String × JVal) → List Char
  | [] => ['}']
  | [(k, v)] => '"' :: (escList k.data ++ '"' :: ':' :: (stringifyVal v ++ ['}']))
  | (k, v) :: fs => '"' :: (escList k.data ++ '"' :: ':' :: (stringifyVal v ++ ',' :: stringifyFields fs))

end

mutual

/-- Models `JSON.parse` on a character list: parses one JSON value and
returns it with the unconsumed remainder.  The fuel argument bounds the
nesting the parser will follow; `none` on exhausted fuel. -/
def parseVal : Nat → List Char → Option (JVal × List Char)
  | 0, _ => none
  | fuel + 1, cs =>
    match cs with
    | [] => none
    | c :: cs2 =>
      if c = 'n' then (dropLit "ull".data cs2).map (fun r => (JVal.null, r))
      else if c = 't' then (dropLit "rue".data cs2).map (fun r => (JVal.bool true, r))
      else if c = 'f' then (dropLit "alse".data cs2).map (fun r => (JVal.bool false, r))
      else if c = '"' then (parseStrBody cs2).map (fun p => (JVal.str (String.mk p.1), p.2))
      else if c = '[' then (parseItems fuel cs2).map (fun p => (JVal.arr p.1, p.2))
      else if c = '{' then (parseFields fuel cs2).map (fun p => (JVal.obj p.1, p.2))
      else if c = '-' then (parseNat cs2).map (fun p => (JVal.num (-(p.1 : Int)), p.2))
      else if c.isDigit then (parseNat (c :: cs2)).map (fun p => (JVal.num (p.1 : Int), p.2))
      else none

/-- Parses the elements of an array after the opening bracket, consuming
the closing bracket. -/
def parseItems : Nat → List Char → Option (List JVal × List Char)
  | 0, _ => none
  | fuel + 1, cs =>
    match cs with
    | [] => none
    | c :: cs2 =>
      if c = ']' then some ([], cs2)
      else
        match parseVal fuel (c :: cs2) with
        | some (v, rest) =>
          match rest with
          | ',' :: rest2 => (parseItems fuel rest2).map (fun p => (v :: p.1, p.2))
          | ']' :: rest2 => some ([v], rest2)
          | _ => none
        | none => none

/-- Parses the fields of an object after the opening brace, consuming the
closing brace. -/
def parseFields : Nat → List Char → Option (List (String × JVal) × List Char)
  | 0, _ => none
  | fuel + 1, cs =>
    match cs with
    | [] => none
    | c :: cs2 =>
      if c = '}' then some ([], cs2)
      else if c = '"' then
        match parseStrBody cs2 with
        | some (k, rest1) =>
          match rest1 with
          | ':' :: rest2 =>
            match parseVal fuel rest2 with
            | some (v, rest3) =>
              match rest3 with
              | ',' :: rest4 => (parseFields fuel rest4).map (fun p => ((String.mk k, v) :: p.1, p.2))
              | '}' :: rest4 => some ([(String.mk k, v)], rest4)
              | _ => none
            | none => none
          | _ => none
        | none => none
      else none

end

/-- Models the `JSON.stringify` builtin used by `_upsertState` and
`_createSession` to serialize a state document. -/
def jsonStringify (v : JVal) : String :=
  String.mk (stringifyVal v)

/-- Models the `JSON.parse` builtin used by `getState` to deserialize the
stored `state` column.  Twice the input length plus two units of fuel is
enough for any input the parser can accept. -/
def jsonParse (s : String) : Option JVal :=
  match parseVal (2 * s.data.length + 2) s.data with
  | some (v, []) => some v
  | _ => none

/-- A row of the `dialog_sessions` table.  `created_on` and `active_on` are
`Option` timestamps, `none` standing for SQL NULL (the column default: the
spec's schema declares no default for either timestamp column). -/
structure Row where
  id : String
  state : String
  created_on : Option Nat
  active_on : Option Nat
deriving Repr, DecidableEq

/-- Failures an operation can surface. -/
inductive DBError where
  /-- A plain INSERT hit an existing primary key. -/
  | uniqueViolation : DBError
  /-- The `setState` guard threw (state must be a plain object). -/
  | validation : DBError
  /-- `JSON.parse` rejected the stored `state` column. -/
  | parseFailure : DBError
  /-- Model artifact: the recursion in `getState` exceeded its fuel. -/
  | outOfFuel : DBError
deriving Repr, DecidableEq

/-- The `knex('dialog_sessions').where(id).limit(1)...get(0)` lookup used
by `getState`: the first row with the given id, if any. -/
def findSession (db : List Row) (stateId : String) : Option Row :=
  db.find? (fun r => r.id == stateId)

/-- Modelled from the spec: the table-creation code is not under `src/`,
and the spec's schema (section 6) makes `id` the primary key of
`dialog_sessions`, so a plain `knex.insert` of an existing id fails with a
uniqueness violation; otherwise the row is appended. -/
def insertRow (db : List Row) (r : Row) : Except DBError (List Row) :=
  if (findSession db r.id).isSome then .error .uniqueViolation
  else .ok (db ++ [r])

/-- The `_createEmptyState` factory: the default document for an id is the
object with the single field `_stateId` holding the id. -/
def createEmptyState (stateId : String) : JVal :=
  .obj [("_stateId", .str stateId)]

/-- The row `_createSession` inserts: id, both timestamps set to the same
`now`, and the serialized default document. -/
def freshSessionRow (stateId : String) (now : Nat) : Row :=
  { id := stateId
    created_on := some now
    active_on := some now
    state := jsonStringify (createEmptyState stateId) }

/-- The `_createSession` helper: a plain insert of the fresh session row. -/
def createSession (db : List Row) (stateId : String) (now : Nat) : Except DBError (List Row) :=
  insertRow db (freshSessionRow stateId now)

/-- The `_isExpired` default supplied by `internals`: always false. -/
def isExpiredDefault : Row → Bool := fun _ => false

/-- The lite-backend (`isLite`) branch of `_upsertState`:
`INSERT OR REPLACE INTO dialog_sessions (id, state, active_on)`.
The statement names only `id`, `state` and `active_on`, so the replacement
row's `created_on` is the column default (`none`), not the write's `now`. -/
def liteUpsertRow (db : List Row) (stateId s : String) (now : Nat) : List Row :=
  if (findSession db stateId).isSome then
    db.map (fun r => if r.id == stateId then
      { id := stateId, state := s, created_on := none, active_on := some now } else r)
  else db ++ [{ id := stateId, state := s, created_on := none, active_on := some now }]

/-- The standard-backend branch of `_upsertState`:
`INSERT ... (id, state, active_on, created_on) VALUES (.., now, now)
ON CONFLICT (id) DO UPDATE SET active_on = now, state = ..`.
On collision only `active_on` and `state` change; `created_on` is kept. -/
def standardUpsertRow (db : List Row) (stateId s : String) (now : Nat) : List Row :=
  if (findSession db stateId).isSome then
    db.map (fun r => if r.id == stateId then { r with state := s, active_on := some now } else r)
  else db ++ [{ id := stateId, state := s, created_on := some now, active_on := some now }]

/-- The `_upsertState` helper: serializes the document and dispatches on
the backend flavor reported by `helpers(knex).isLite()`. -/
def upsertState (isLite : Bool) (db : List Row) (stateId : String) (state : JVal) (now : Nat) :
    List Row :=
  if isLite then liteUpsertRow db stateId (jsonStringify state) now
  else standardUpsertRow db stateId (jsonStringify state) now

/-- The public `getState`, with explicit fuel standing for the recursion
depth of the source's self-calls (absent id: create then re-read; expired
session: recreate then re-read). -/
def getState (isExp : Row → Bool) (now : Nat) : Nat → List Row → String → Except DBError (JVal × List Row)
  | 0, _, _ => .error .outOfFuel
  | fuel + 1, db, stateId =>
    match findSession db stateId with
    | some session =>
      if isExp session then
        match createSession db stateId now with
        | .ok db2 => getState isExp now fuel db2 stateId
        | .error e => .error e
      else
        match jsonParse session.state with
        | some doc => .ok (doc, db)
        | none => .error .parseFailure
    | none =>
      match createSession db stateId now with
      | .ok db2 => getState isExp now fuel db2 stateId
      | .error e => .error e

/-- The public `setState`.  The `state` argument is an `Option` so that the
JavaScript `undefined` is representable (`none`); `_.isNil` is true for
`undefined` and `null`, and a nil state is replaced by the default document
before the plain-object guard and the upsert run.  An error result means
the guard threw before any I/O. -/
def setState (isLite : Bool) (now : Nat) (db : List Row) (stateId : String)
    (state : Option JVal) : Except DBError (List Row) :=
  let st : JVal :=
    match state with
    | none => createEmptyState stateId
    | some JVal.null => createEmptyState stateId
    | some v => v
  if st.isPlainObject then .ok (upsertState isLite db stateId st now)
  else .error .validation

/-- The store a caller of `setState` observes afterwards: the new row list
on success, the untouched input on a thrown validation error. -/
def applySetState (isLite : Bool) (now : Nat) (db : List Row) (stateId : String)
    (state : Option JVal) : List Row :=
  match setState isLite now db stateId state with
  | .ok db2 => db2
  | .error _ => db

/-- The public `deleteState`: deletes every row whose id is the parent id
or a derived `parent___substate` id, in one `whereIn` delete. -/
def deleteState (db : List Row) (stateId : String)
    (substates : List String := ["context"]) : List Row :=
  let states := stateId :: substates.map (fun x => stateId ++ "___" ++ x)
  db.filter (fun r => !(states.contains r.id))

/-- The input shapes after which a serialized number can be safely cut off:
the remainder must not begin with a digit. -/
def noDigitHead (cs : List Char) : Prop :=
  ∀ c, cs.head? = some c → c.isDigit = false

theorem noDigitHead_nil : noDigitHead [] := by
  intro c hc
  simp at hc

theorem noDigitHead_cons (c : Char) (t : List Char) (h : c.isDigit = false) :
    noDigitHead (c :: t) := by
  intro d hd
  simp [List.head?] at hd
  rw [← hd]
  exact h

theorem digitChar_isDigit (d : Nat) (h : d < 10) : (Char.ofNat (48 + d)).isDigit = true := by
  interval_cases d <;> decide

theorem digitChar_toNat (d : Nat) (h : d < 10) : (Char.ofNat (48 + d)).toNat = 48 + d := by
  interval_cases d <;> decide

theorem natCharsAux_spec :
    ∀ fuel n, n < fuel →
      natCharsAux fuel n ≠ [] ∧ ∀ c ∈ natCharsAux fuel n, c.isDigit = true := by
  intro fuel
  induction fuel with
  | zero => intro n h; omega
  | succ fuel IH =>
    intro n h
    by_cases h10 : n < 10
    · refine ⟨by simp [natCharsAux, h10], ?_⟩
      intro c hc
      simp [natCharsAux, h10] at hc
      rw [hc]
      exact digitChar_isDigit n h10
    · have hdiv : n / 10 < fuel := by
        have := Nat.div_lt_self (by omega : 0 < n) (by omega : 1 < 10)
        omega
      obtain ⟨hne, hdig⟩ := IH (n / 10) hdiv
      refine ⟨by simp [natCharsAux, h10], ?_⟩
      intro c hc
      simp only [natCharsAux, if_neg h10, List.mem_append, List.mem_singleton] at hc
      rcases hc with hc | hc
      · exact hdig c hc
      · rw [hc]
        exact digitChar_isDigit (n % 10) (Nat.mod_lt _ (by omega))

theorem natChars_ne_nil (n : Nat) : natChars n ≠ [] :=
  (natCharsAux_spec (n + 1) n (by omega)).1

theorem natChars_digits (n : Nat) : ∀ c ∈ natChars n, c.isDigit = true :=
  (natCharsAux_spec (n + 1) n (by omega)).2

theorem digitsToNat_append_singleton (l : List Char) (c : Char) :
    digitsToNat (l ++ [c]) = digitsToNat l * 10 + (c.toNat - 48) := by
  simp [digitsToNat, List.foldl_append]

theorem digitsToNat_natCharsAux :
    ∀ fuel n, n < fuel → digitsToNat (natCharsAux fuel n) = n := by
  intro fuel
  induction fuel with
  | zero => intro n h; omega
  | succ fuel IH =>
    intro n h
    by_cases h10 : n < 10
    · simp [natCharsAux, h10, digitsToNat, digitChar_toNat n h10]
    · have hdiv : n / 10 < fuel := by
        have := Nat.div_lt_self (by omega : 0 < n) (by omega : 1 < 10)
        omega
      rw [natCharsAux, if_neg h10, digitsToNat_append_singleton, IH (n / 10) hdiv,
        digitChar_toNat (n % 10) (Nat.mod_lt _ (by omega))]
      have := Nat.div_add_mod n 10
      omega

theorem digitsToNat_natChars (n : Nat) : digitsToNat (natChars n) = n :=
  digitsToNat_natCharsAux (n + 1) n (by omega)

theorem takeWhile_append_all (p : Char → Bool) :
    ∀ (l rest : List Char), (∀ c ∈ l, p c = true) → (∀ c, rest.head? = some c → p c = false) →
      (l ++ rest).takeWhile p = l ∧ (l ++ rest).dropWhile p = rest := by
  intro l
  induction l with
  | nil =>
    intro rest _ hr
    cases rest with
    | nil => simp
    | cons c t => simp [List.takeWhile_cons, List.dropWhile_cons, hr c rfl]
  | cons a l IH =>
    intro rest hl hr
    have ha : p a = true := hl a (by simp)
    have := IH rest (fun c hc => hl c (by simp [hc])) hr
    simp [List.takeWhile_cons, List.dropWhile_cons, ha, this.1, this.2]

theorem parseNat_natChars (n : Nat) (rest : List Char) (hrest : noDigitHead rest) :
    parseNat (natChars n ++ rest) = some (n, rest) := by
  obtain ⟨htake, hdrop⟩ :=
    takeWhile_append_all (fun c => c.isDigit) (natChars n) rest (natChars_digits n) hrest
  rw [parseNat]
  simp only [htake, hdrop]
  rw [if_neg (by simpa [List.isEmpty_iff] using natChars_ne_nil n)]
  rw [digitsToNat_natChars]

theorem parseStrBody_escList :
    ∀ (s rest : List Char), parseStrBody (escList s ++ '"' :: rest) = some (s, rest) := by
  intro s
  induction s with
  | nil =>
    intro rest
    rw [show escList [] ++ '"' :: rest = '"' :: rest from rfl, parseStrBody.eq_def]
    simp
  | cons c t IH =>
    intro rest
    by_cases hc : c = '"' ∨ c = '\\'
    · simp only [escList, if_pos hc, List.cons_append, List.nil_append, List.append_assoc]
      rw [parseStrBody.eq_def]
      simp [IH rest]
    · push_neg at hc
      simp only [escList, if_neg (by tauto : ¬(c = '"' ∨ c = '\\')), List.cons_append,
        List.nil_append, List.append_assoc]
      rw [parseStrBody.eq_def]
      simp [hc.1, hc.2, IH rest]

theorem dropLit_append : ∀ (l cs : List Char), dropLit l (l ++ cs) = some cs := by
  intro l
  induction l with
  | nil => intro cs; rfl
  | cons a l IH => intro cs; simp [dropLit, IH cs]

theorem isDigit_ne_delims (c : Char) (h : c.isDigit = true) :
    c ≠ 'n' ∧ c ≠ 't' ∧ c ≠ 'f' ∧ c ≠ '"' ∧ c ≠ '[' ∧ c ≠ '{' ∧ c ≠ '-' := by
  refine ⟨?_, ?_, ?_, ?_, ?_, ?_, ?_⟩ <;>
    exact fun he => absurd (he ▸ h) (by decide)

theorem stringifyVal_head_ne (v : JVal) :
    ∃ c t, stringifyVal v = c :: t ∧ c ≠ ']' ∧ c ≠ '}' := by
  cases v with
  | null => exact ⟨'n', _, rfl, by decide, by decide⟩
  | bool b =>
    cases b with
    | false => exact ⟨'f', _, rfl, by decide, by decide⟩
    | true => exact ⟨'t', _, rfl, by decide, by decide⟩
  | num k =>
    by_cases hk : k < 0
    · exact ⟨'-', natChars k.natAbs, by simp [stringifyVal, hk], by decide, by decide⟩
    · cases hnc : natChars k.toNat with
      | nil => exact absurd hnc (natChars_ne_nil _)
      | cons c t =>
        have hcd : c.isDigit = true := natChars_digits _ c (by rw [hnc]; simp)
        refine ⟨c, t, by simp [stringifyVal, hk, hnc], ?_, ?_⟩
        · exact fun he => absurd (he ▸ hcd) (by decide)
        · exact fun he => absurd (he ▸ hcd) (by decide)
  | str s => exact ⟨'"', _, rfl, by decide, by decide⟩
  | arr xs => exact ⟨'[', _, rfl, by decide, by decide⟩
  | obj fs => exact ⟨'{', _, rfl, by decide, by decide⟩

theorem string_mk_data (s : String) : String.mk s.data = s := rfl

theorem parseVal_succ_cons (f : Nat) (c : Char) (cs : List Char) :
    parseVal (f + 1) (c :: cs) =
      if c = 'n' then (dropLit "ull".data cs).map (fun r => (JVal.null, r))
      else if c = 't' then (dropLit "rue".data cs).map (fun r => (JVal.bool true, r))
      else if c = 'f' then (dropLit "alse".data cs).map (fun r => (JVal.bool false, r))
      else if c = '"' then (parseStrBody cs).map (fun p => (JVal.str (String.mk p.1), p.2))
      else if c = '[' then (parseItems f cs).map (fun p => (JVal.arr p.1, p.2))
      else if c = '{' then (parseFields f cs).map (fun p => (JVal.obj p.1, p.2))
      else if c = '-' then (parseNat cs).map (fun p => (JVal.num (-(p.1 : Int)), p.2))
      else if c.isDigit then (parseNat (c :: cs)).map (fun p => (JVal.num (p.1 : Int), p.2))
      else none := by
  rw [parseVal.eq_def]

theorem parseItems_succ_cons (f : Nat) (c : Char) (cs : List Char) :
    parseItems (f + 1) (c :: cs) =
      if c = ']' then some ([], cs)
      else
        match parseVal f (c :: cs) with
        | some (v, rest) =>
          match rest with
          | ',' :: rest2 => (parseItems f rest2).map (fun p => (v :: p.1, p.2))
          | ']' :: rest2 => some ([v], rest2)
          | _ => none
        | none => none := by
  rw [parseItems.eq_def]

theorem parseFields_succ_cons (f : Nat) (c : Char) (cs : List Char) :
    parseFields (f + 1) (c :: cs) =
      if c = '}' then some ([], cs)
      else if c = '"' then
        match parseStrBody cs with
        | some (k, rest1) =>
          match rest1 with
          | ':' :: rest2 =>
            match parseVal f rest2 with
            | some (v, rest3) =>
              match rest3 with
              | ',' :: rest4 => (parseFields f rest4).map (fun p => ((String.mk k, v) :: p.1, p.2))
              | '}' :: rest4 => some ([(String.mk k, v)], rest4)
              | _ => none
            | none => none
          | _ => none
        | none => none
      else none := by
  rw [parseFields.eq_def]

theorem parse_stringify_strong :
    ∀ n : Nat,
      (∀ v : JVal, (stringifyVal v).length ≤ n →
        ∀ fuel rest, 2 * (stringifyVal v).length + 2 ≤ fuel → noDigitHead rest →
          parseVal fuel (stringifyVal v ++ rest) = some (v, rest)) ∧
      (∀ xs : List JVal, (stringifyItems xs).length ≤ n →
        ∀ fuel rest, 2 * (stringifyItems xs).length + 2 ≤ fuel → noDigitHead rest →
          parseItems fuel (stringifyItems xs ++ rest) = some (xs, rest)) ∧
      (∀ fs : List (String × JVal), (stringifyFields fs).length ≤ n →
        ∀ fuel rest, 2 * (stringifyFields fs).length + 2 ≤ fuel → noDigitHead rest →
          parseFields fuel (stringifyFields fs ++ rest) = some (fs, rest)) := by
  intro n
  induction n using Nat.strong_induction_on with
  | _ n IH =>
  refine ⟨?_, ?_, ?_⟩
  · -- values
    intro v hlen fuel rest hfuel hrest
    obtain ⟨f, rfl⟩ : ∃ f, fuel = f + 1 := ⟨fuel - 1, by omega⟩
    cases v with
    | null =>
      rw [show stringifyVal JVal.null ++ rest = 'n' :: ("ull".data ++ rest) from rfl,
        parseVal_succ_cons, if_pos rfl, dropLit_append]
      rfl
    | bool b =>
      cases b with
      | true =>
        rw [show stringifyVal (JVal.bool true) ++ rest = 't' :: ("rue".data ++ rest) from rfl,
          parseVal_succ_cons, if_neg (by decide), if_pos rfl, dropLit_append]
        rfl
      | false =>
        rw [show stringifyVal (JVal.bool false) ++ rest =
            'f' :: ("alse".data ++ rest) from rfl, parseVal_succ_cons,
          if_neg (by decide), if_neg (by decide), if_pos rfl, dropLit_append]
        rfl
    | num k =>
      by_cases hk : k < 0
      · have hser : stringifyVal (JVal.num k) = '-' :: natChars k.natAbs := by
          simp [stringifyVal, hk]
        rw [hser, List.cons_append, parseVal_succ_cons, if_neg (by decide), if_neg (by decide),
          if_neg (by decide), if_neg (by decide), if_neg (by decide), if_neg (by decide),
          if_pos rfl, parseNat_natChars k.natAbs rest hrest]
        simp only [Option.map_some']
        have hks : -((k.natAbs : Nat) : Int) = k := by omega
        rw [hks]
      · have hser : stringifyVal (JVal.num k) = natChars k.toNat := by
          simp [stringifyVal, hk]
        cases hnc : natChars k.toNat with
        | nil => exact absurd hnc (natChars_ne_nil _)
        | cons c t =>
          have hcd : c.isDigit = true := natChars_digits _ c (by rw [hnc]; simp)
          obtain ⟨h1, h2, h3, h4, h5, h6, h7⟩ := isDigit_ne_delims c hcd
          rw [hser, hnc, List.cons_append, parseVal_succ_cons, if_neg h1, if_neg h2, if_neg h3,
            if_neg h4, if_neg h5, if_neg h6, if_neg h7, if_pos hcd,
            show c :: (t ++ rest) = (c :: t) ++ rest from rfl, ← hnc,
            parseNat_natChars k.toNat rest hrest]
          simp only [Option.map_some']
          have hks : ((k.toNat : Nat) : Int) = k := by omega
          rw [hks]
    | str s =>
      rw [show stringifyVal (JVal.str s) ++ rest =
          '"' :: (escList s.data ++ '"' :: rest) from by
            simp [stringifyVal, List.cons_append, List.append_assoc],
        parseVal_succ_cons, if_neg (by decide), if_neg (by decide), if_neg (by decide),
        if_pos rfl, parseStrBody_escList s.data rest]
      simp only [Option.map_some', string_mk_data]
    | arr xs =>
      have hl : (stringifyVal (JVal.arr xs)).length = (stringifyItems xs).length + 1 := by
        simp [stringifyVal]
      rw [show stringifyVal (JVal.arr xs) ++ rest = '[' :: (stringifyItems xs ++ rest) from by
          simp [stringifyVal], parseVal_succ_cons, if_neg (by decide), if_neg (by decide),
        if_neg (by decide), if_neg (by decide), if_pos rfl]
      have hIH := (IH (n - 1) (by omega)).2.1 xs (by omega) f rest (by omega) hrest
      rw [hIH]
      rfl
    | obj fs =>
      have hl : (stringifyVal (JVal.obj fs)).length = (stringifyFields fs).length + 1 := by
        simp [stringifyVal]
      rw [show stringifyVal (JVal.obj fs) ++ rest = '{' :: (stringifyFields fs ++ rest) from by
          simp [stringifyVal], parseVal_succ_cons, if_neg (by decide), if_neg (by decide),
        if_neg (by decide), if_neg (by decide), if_neg (by decide), if_pos rfl]
      have hIH := (IH (n - 1) (by omega)).2.2 fs (by omega) f rest (by omega) hrest
      rw [hIH]
      rfl
  · -- array items
    intro xs hlen fuel rest hfuel hrest
    obtain ⟨f, rfl⟩ : ∃ f, fuel = f + 1 := ⟨fuel - 1, by omega⟩
    cases xs with
    | nil =>
      rw [show stringifyItems [] ++ rest = ']' :: rest from rfl, parseItems_succ_cons,
        if_pos rfl]
    | cons v vs =>
      obtain ⟨c, t, hct, hc1, _⟩ := stringifyVal_head_ne v
      have hlv : 1 ≤ (stringifyVal v).length := by rw [hct]; simp
      cases vs with
      | nil =>
        have hsi : stringifyItems [v] = stringifyVal v ++ [']'] := by simp [stringifyItems]
        have hli : (stringifyItems [v]).length = (stringifyVal v).length + 1 := by
          simp [hsi]
        rw [hsi, List.append_assoc, List.singleton_append, hct, List.cons_append,
          parseItems_succ_cons, if_neg hc1, ← List.cons_append, ← hct]
        have hv := (IH (n - 1) (by omega)).1 v (by omega) f (']' :: rest) (by omega)
          (noDigitHead_cons ']' rest (by decide))
        rw [hv]
        rfl
      | cons w ws =>
        have hsi : stringifyItems (v :: w :: ws) =
            stringifyVal v ++ ',' :: stringifyItems (w :: ws) := by
          simp [stringifyItems]
        have hli : (stringifyItems (v :: w :: ws)).length =
            (stringifyVal v).length + 1 + (stringifyItems (w :: ws)).length := by
          rw [hsi]; simp; omega
        rw [hsi, List.append_assoc, List.cons_append, hct, List.cons_append,
          parseItems_succ_cons, if_neg hc1, ← List.cons_append, ← hct]
        have hv := (IH (n - 1) (by omega)).1 v (by omega) f
          (',' :: (stringifyItems (w :: ws) ++ rest)) (by omega)
          (noDigitHead_cons ',' _ (by decide))
        rw [hv]
        have hws := (IH (n - 1) (by omega)).2.1 (w :: ws) (by omega) f rest (by omega) hrest
        simp only [hws]
        rfl
  · -- object fields
    intro fs hlen fuel rest hfuel hrest
    obtain ⟨f, rfl⟩ : ∃ f, fuel = f + 1 := ⟨fuel - 1, by omega⟩
    cases fs with
    | nil =>
      rw [show stringifyFields [] ++ rest = '}' :: rest from rfl, parseFields_succ_cons,
        if_pos rfl]
    | cons kv fvs =>
      obtain ⟨k, v⟩ := kv
      cases fvs with
      | nil =>
        have hsf : stringifyFields [(k, v)] =
            '"' :: (escList k.data ++ '"' :: ':' :: (stringifyVal v ++ ['}'])) := by
          simp [stringifyFields]
        have hlf : (stringifyFields [(k, v)]).length =
            (escList k.data).length + (stringifyVal v).length + 4 := by
          rw [hsf]; simp; omega
        rw [hsf, List.cons_append, parseFields_succ_cons, if_neg (by decide), if_pos rfl,
          show (escList k.data ++ '"' :: ':' :: (stringifyVal v ++ ['}'])) ++ rest =
            escList k.data ++ '"' :: ':' :: (stringifyVal v ++ '}' :: rest) from by simp,
          parseStrBody_escList k.data (':' :: (stringifyVal v ++ '}' :: rest))]
        have hv := (IH (n - 1) (by omega)).1 v (by omega) f ('}' :: rest) (by omega)
          (noDigitHead_cons '}' rest (by decide))
        simp only [hv]
      | cons kv2 fvs2 =>
        obtain ⟨k2, v2⟩ := kv2
        have hsf : stringifyFields ((k, v) :: (k2, v2) :: fvs2) =
            '"' :: (escList k.data ++ '"' :: ':' ::
              (stringifyVal v ++ ',' :: stringifyFields ((k2, v2) :: fvs2))) := by
          simp [stringifyFields]
        have hlv : 1 ≤ (stringifyVal v).length := by
          obtain ⟨c, t, hct, _, _⟩ := stringifyVal_head_ne v
          rw [hct]; simp
        have hlf2 : 1 ≤ (stringifyFields ((k2, v2) :: fvs2)).length := by
          cases fvs2 <;> simp [stringifyFields]
        have hlf : (stringifyFields ((k, v) :: (k2, v2) :: fvs2)).length =
            (escList k.data).length + (stringifyVal v).length +
              (stringifyFields ((k2, v2) :: fvs2)).length + 4 := by
          rw [hsf]; simp; omega
        rw [hsf, List.cons_append, parseFields_succ_cons, if_neg (by decide), if_pos rfl,
          show (escList k.data ++ '"' :: ':' ::
              (stringifyVal v ++ ',' :: stringifyFields ((k2, v2) :: fvs2))) ++ rest =
            escList k.data ++ '"' :: ':' ::
              (stringifyVal v ++ ',' :: (stringifyFields ((k2, v2) :: fvs2) ++ rest))
            from by simp,
          parseStrBody_escList k.data
            (':' :: (stringifyVal v ++ ',' :: (stringifyFields ((k2, v2) :: fvs2) ++ rest)))]
        have hv := (IH (n - 1) (by omega)).1 v (by omega) f
          (',' :: (stringifyFields ((k2, v2) :: fvs2) ++ rest)) (by omega)
          (noDigitHead_cons ',' _ (by decide))
        simp only [hv]
        have hfs := (IH (n - 1) (by omega)).2.2 ((k2, v2) :: fvs2) (by omega) f rest
          (by omega) hrest
        simp only [hfs]
        simp [string_mk_data]

theorem jsonParse_jsonStringify (v : JVal) : jsonParse (jsonStringify v) = some v := by
  have h := (parse_stringify_strong (stringifyVal v).length).1 v le_rfl
    (2 * (stringifyVal v).length + 2) [] le_rfl noDigitHead_nil
  rw [List.append_nil] at h
  unfold jsonParse jsonStringify
  rw [show (String.mk (stringifyVal v)).data = stringifyVal v from rfl, h]

theorem findSession_append_of_none (db : List Row) (r : Row) (X : String)
    (h : findSession db X = none) (hr : (r.id == X) = true) :
    findSession (db ++ [r]) X = some r := by
  rw [findSession] at h ⊢
  rw [List.find?_append, h]
  simp [List.find?_cons, hr]

theorem find?_map_ite (db : List Row) (X : String) (upd : Row → Row)
    (hupd : ∀ r : Row, (r.id == X) = true → ((upd r).id == X) = true) :
    (db.map (fun r => if r.id == X then upd r else r)).find? (fun r => r.id == X) =
      (db.find? (fun r => r.id == X)).map upd := by
  induction db with
  | nil => rfl
  | cons a l IH =>
    by_cases h : a.id = X
    · have hb : (a.id == X) = true := beq_iff_eq.mpr h
      rw [List.map_cons, if_pos hb,
        @List.find?_cons_of_pos _ (fun r => r.id == X) (upd a) _ (hupd a hb),
        @List.find?_cons_of_pos _ (fun r => r.id == X) a _ hb]
      rfl
    · have hb : (a.id == X) = false := beq_eq_false_iff_ne.mpr h
      have hb' : ¬ ((a.id == X) = true) := by rw [hb]; simp
      rw [List.map_cons, if_neg hb',
        @List.find?_cons_of_neg _ (fun r => r.id == X) a _ hb',
        @List.find?_cons_of_neg _ (fun r => r.id == X) a _ hb', IH]

theorem findSession_liteUpsertRow (db : List Row) (X s : String) (now : Nat) :
    findSession (liteUpsertRow db X s now) X =
      some { id := X, state := s, created_on := none, active_on := some now } := by
  rw [liteUpsertRow]
  by_cases h : (findSession db X).isSome
  · rw [if_pos h, findSession,
      find?_map_ite db X
        (fun _ => { id := X, state := s, created_on := none, active_on := some now })
        (fun r _ => beq_self_eq_true X)]
    obtain ⟨r, hr⟩ := Option.isSome_iff_exists.mp h
    rw [findSession] at hr
    rw [hr]
    rfl
  · rw [if_neg h]
    have hnone : findSession db X = none := by
      cases hfs : findSession db X
      · rfl
      · rw [hfs] at h; simp at h
    exact findSession_append_of_none db _ X hnone (beq_self_eq_true X)

theorem findSession_standardUpsertRow_present (db : List Row) (X s : String) (now : Nat)
    (r : Row) (h : findSession db X = some r) :
    findSession (standardUpsertRow db X s now) X =
      some { id := r.id, state := s, created_on := r.created_on, active_on := some now } := by
  rw [standardUpsertRow, if_pos (by rw [h]; rfl), findSession,
    find?_map_ite db X
      (fun q => { id := q.id, state := s, created_on := q.created_on, active_on := some now })
      (fun q hq => hq)]
  rw [findSession] at h
  rw [h]
  rfl

theorem findSession_standardUpsertRow_absent (db : List Row) (X s : String) (now : Nat)
    (h : findSession db X = none) :
    findSession (standardUpsertRow db X s now) X =
      some { id := X, state := s, created_on := some now, active_on := some now } := by
  rw [standardUpsertRow, if_neg (by rw [h]; simp)]
  exact findSession_append_of_none db _ X h (beq_self_eq_true X)

theorem findSession_upsertState (isLite : Bool) (db : List Row) (X : String) (D : JVal)
    (now : Nat) :
    ∃ r, findSession (upsertState isLite db X D now) X = some r ∧
      r.state = jsonStringify D := by
  cases isLite
  · rw [show upsertState false db X D now =
        standardUpsertRow db X (jsonStringify D) now from rfl]
    cases hfs : findSession db X with
    | some r =>
      exact ⟨_, findSession_standardUpsertRow_present db X _ now r hfs, rfl⟩
    | none =>
      exact ⟨_, findSession_standardUpsertRow_absent db X _ now hfs, rfl⟩
  · rw [show upsertState true db X D now = liteUpsertRow db X (jsonStringify D) now from rfl]
    exact ⟨_, findSession_liteUpsertRow db X _ now, rfl⟩

theorem getState_succ (isExp : Row → Bool) (now fuel : Nat) (db : List Row) (X : String) :
    getState isExp now (fuel + 1) db X =
      match findSession db X with
      | some session =>
        if isExp session then
          match createSession db X now with
          | .ok db2 => getState isExp now fuel db2 X
          | .error e => .error e
        else
          match jsonParse session.state with
          | some doc => .ok (doc, db)
          | none => .error .parseFailure
      | none =>
        match createSession db X now with
        | .ok db2 => getState isExp now fuel db2 X
        | .error e => .error e := by
  rw [getState.eq_def]

theorem createSession_of_absent (db : List Row) (X : String) (now : Nat)
    (h : findSession db X = none) :
    createSession db X now = .ok (db ++ [freshSessionRow X now]) := by
  rw [createSession, insertRow, show (freshSessionRow X now).id = X from rfl, h]
  rfl

theorem createSession_of_present (db : List Row) (X : String) (now : Nat) (r : Row)
    (h : findSession db X = some r) :
    createSession db X now = .error .uniqueViolation := by
  rw [createSession, insertRow, show (freshSessionRow X now).id = X from rfl, h]
  rfl

theorem getState_run_absent (isExp : Row → Bool) (now : Nat) (db : List Row) (X : String)
    (f : Nat) (h : findSession db X = none)
    (hfresh : isExp (freshSessionRow X now) = false) :
    getState isExp now (f + 2) db X =
      .ok (createEmptyState X, db ++ [freshSessionRow X now]) := by
  have hc := createSession_of_absent db X now h
  have hf := findSession_append_of_none db (freshSessionRow X now) X h (beq_self_eq_true X)
  have hs : (freshSessionRow X now).state = jsonStringify (createEmptyState X) := rfl
  rw [show f + 2 = (f + 1) + 1 from rfl]
  simp only [getState_succ, h, hc, hf, hfresh, hs, jsonParse_jsonStringify, if_false,
    Bool.false_eq_true]

theorem getState_run_expired (isExp : Row → Bool) (now : Nat) (db : List Row) (X : String)
    (r : Row) (f : Nat) (h : findSession db X = some r) (hexp : isExp r = true) :
    getState isExp now (f + 1) db X = .error .uniqueViolation := by
  have hc := createSession_of_present db X now r h
  simp only [getState_succ, h, hexp, hc, if_true]

theorem getState_run_present (isExp : Row → Bool) (now : Nat) (db : List Row) (X : String)
    (r : Row) (f : Nat) (h : findSession db X = some r) (hexp : isExp r = false) :
    getState isExp now (f + 1) db X =
      match jsonParse r.state with
      | some doc => .ok (doc, db)
      | none => .error .parseFailure := by
  simp only [getState_succ, h, hexp, if_false, Bool.false_eq_true]

theorem contains_eq_false_iff (l : List String) (a : String) :
    l.contains a = false ↔ a ∉ l := by
  constructor
  · intro hf hm
    have : List.elem a l = true := List.elem_iff.mpr hm
    rw [show l.contains a = List.elem a l from rfl, this] at hf
    exact absurd hf (by decide)
  · intro hnm
    cases hb : l.contains a
    · rfl
    · exact absurd (List.elem_iff.mp hb) hnm

/-- C1: for every state id with no existing row in `dialog_sessions`,
`getState` creates a new session and returns the default document whose
only field is `_stateId` holding the id, raising no error for the missing
id (default expiry hook; two units of fuel cover the single retry). -/
theorem c1_getState_absent_creates_and_returns_default (db : List Row) (X : String)
    (now f : Nat) (h : findSession db X = none) :
    getState isExpiredDefault now (f + 2) db X =
      .ok (createEmptyState X, db ++ [freshSessionRow X now]) :=
  getState_run_absent isExpiredDefault now db X f h rfl

theorem c1_witness :
    getState isExpiredDefault 5 2 [] "conv1" =
      .ok (createEmptyState "conv1", [freshSessionRow "conv1" 5]) :=
  c1_getState_absent_creates_and_returns_default [] "conv1" 5 0 rfl

/-- C2: for every state id and every plain-object document `D` (nested ones
included), `setState` succeeds, and a following `getState` deserializes the
stored row back to a document equal to `D` (the serialize-then-deserialize
round trip `jsonParse (jsonStringify D) = some D` proved above). -/
theorem c2_setState_then_getState_roundtrip (isLite : Bool) (now now2 : Nat) (db : List Row)
    (X : String) (D : JVal) (f : Nat) (hD : D.isPlainObject = true) :
    setState isLite now db X (some D) = .ok (upsertState isLite db X D now) ∧
    getState isExpiredDefault now2 (f + 1) (upsertState isLite db X D now) X =
      .ok (D, upsertState isLite db X D now) := by
  constructor
  · cases D with
    | obj fs => rfl
    | null => simp [JVal.isPlainObject] at hD
    | bool b => simp [JVal.isPlainObject] at hD
    | num k => simp [JVal.isPlainObject] at hD
    | str s => simp [JVal.isPlainObject] at hD
    | arr xs => simp [JVal.isPlainObject] at hD
  · obtain ⟨r, hr, hstate⟩ := findSession_upsertState isLite db X D now
    rw [getState_run_present isExpiredDefault now2 _ X r f hr rfl, hstate,
      jsonParse_jsonStringify]

theorem c2_witness :
    setState false 5 [] "conv1"
        (some (JVal.obj [("a", JVal.obj [("b", JVal.arr [JVal.num 1, JVal.num 2, JVal.num 3])])])) =
      .ok (upsertState false [] "conv1"
        (JVal.obj [("a", JVal.obj [("b", JVal.arr [JVal.num 1, JVal.num 2, JVal.num 3])])]) 5) ∧
    getState isExpiredDefault 6 1
        (upsertState false [] "conv1"
          (JVal.obj [("a", JVal.obj [("b", JVal.arr [JVal.num 1, JVal.num 2, JVal.num 3])])]) 5)
        "conv1" =
      .ok (JVal.obj [("a", JVal.obj [("b", JVal.arr [JVal.num 1, JVal.num 2, JVal.num 3])])],
        upsertState false [] "conv1"
          (JVal.obj [("a", JVal.obj [("b", JVal.arr [JVal.num 1, JVal.num 2, JVal.num 3])])]) 5) :=
  c2_setState_then_getState_roundtrip false 5 6 [] "conv1" _ 0 rfl

/-- C3: at the claim's scenario (a session row exists and the injected
expiry hook reports it expired) the code does not overwrite the session:
the recreate step `_createSession` is a plain INSERT of the fresh row,
which collides with the existing primary key, so `getState` fails with a
uniqueness violation instead of returning a fresh default document. -/
theorem c3_getState_expired_raises (isExp : Row → Bool) (now f : Nat) (db : List Row)
    (X : String) (r : Row) (h : findSession db X = some r) (hexp : isExp r = true) :
    getState isExp now (f + 1) db X = .error .uniqueViolation :=
  getState_run_expired isExp now db X r f h hexp

theorem c3_witness :
    getState (fun _ => true) 7 1 [freshSessionRow "conv1" 1] "conv1" =
      .error .uniqueViolation :=
  c3_getState_expired_raises (fun _ => true) 7 0 [freshSessionRow "conv1" 1] "conv1"
    (freshSessionRow "conv1" 1) rfl rfl

/-- C4, counterexample: on the lite backend, a `setState` at `now = 9` over
an existing row for `conv1` leaves `created_on` at the column default, not
at the write's `now`, refuting that `created_on` is reset to the write's
timestamp. -/
theorem c4_counterexample :
    (findSession
        (applySetState true 9
          [{ id := "conv1", state := "old", created_on := some 1, active_on := some 1 }]
          "conv1" (some (JVal.obj []))) "conv1").map Row.created_on ≠
      some (some 9) := by decide

/-- C4 as amended: on the lite backend every `setState` upsert replaces the
row by key writing only `id`, `state` and `active_on` (the single `now`
feeds only `active_on`); `created_on` is not among the written columns and
is left at the column default, on fresh inserts as well as replacements. -/
theorem c4_lite_upsert_row (db : List Row) (X : String) (D : JVal) (now : Nat) :
    findSession (upsertState true db X D now) X =
      some { id := X, state := jsonStringify D, created_on := none, active_on := some now } :=
  findSession_liteUpsertRow db X (jsonStringify D) now

/-- C5: on the standard backend, an upsert that collides with an existing
row updates only the `state` and `active_on` columns; `created_on` keeps
the value from the original insert. -/
theorem c5_standard_upsert_preserves_created_on (db : List Row) (X : String) (D : JVal)
    (now : Nat) (r : Row) (h : findSession db X = some r) :
    findSession (upsertState false db X D now) X =
      some { id := r.id, state := jsonStringify D, created_on := r.created_on,
             active_on := some now } :=
  findSession_standardUpsertRow_present db X (jsonStringify D) now r h

theorem c5_witness :
    findSession
        (upsertState false
          [{ id := "conv1", state := "old", created_on := some 1, active_on := some 2 }]
          "conv1" (JVal.obj []) 9) "conv1" =
      some { id := "conv1", state := jsonStringify (JVal.obj []), created_on := some 1,
             active_on := some 9 } :=
  c5_standard_upsert_preserves_created_on
    [{ id := "conv1", state := "old", created_on := some 1, active_on := some 2 }]
    "conv1" (JVal.obj []) 9
    { id := "conv1", state := "old", created_on := some 1, active_on := some 2 } rfl

/-- C6: `setState` with a non-nil value that is not a plain object raises
the validation error before any write, and the store a caller observes
afterwards is the unchanged input store. -/
theorem c6_setState_non_object_validation (isLite : Bool) (now : Nat) (db : List Row)
    (X : String) (v : JVal) (hnil : v ≠ JVal.null) (hobj : v.isPlainObject = false) :
    setState isLite now db X (some v) = .error .validation ∧
    applySetState isLite now db X (some v) = db := by
  cases v with
  | null => exact absurd rfl hnil
  | obj fs => simp [JVal.isPlainObject] at hobj
  | bool b => exact ⟨rfl, rfl⟩
  | num k => exact ⟨rfl, rfl⟩
  | str s => exact ⟨rfl, rfl⟩
  | arr xs => exact ⟨rfl, rfl⟩

theorem c6_witness :
    setState true 3 [] "x" (some (JVal.num 42)) = .error .validation ∧
    applySetState true 3 [] "x" (some (JVal.num 42)) = [] :=
  c6_setState_non_object_validation true 3 [] "x" (JVal.num 42)
    (fun hcontra => JVal.noConfusion hcontra) rfl

/-- C7: `deleteState X S` keeps exactly the rows whose id is neither `X`
nor a derived `X___s` for some `s` in `S`; in particular with `S = []` only
the row for `X` is removed, and rows outside the key set are untouched. -/
theorem c7_deleteState_removes_exactly (db : List Row) (X : String) (S : List String)
    (r : Row) :
    r ∈ deleteState db X S ↔
      r ∈ db ∧ r.id ≠ X ∧ ∀ s ∈ S, r.id ≠ X ++ "___" ++ s := by
  have hbridge : ∀ b : Bool, ((!b) = true) ↔ b = false := by decide
  simp only [deleteState, List.mem_filter, hbridge, contains_eq_false_iff,
    List.mem_cons, List.mem_map, not_or, not_exists, not_and]
  constructor
  · rintro ⟨h1, h2, h3⟩
    exact ⟨h1, h2, fun s hs heq => h3 s hs heq.symm⟩
  · rintro ⟨h1, h2, h3⟩
    exact ⟨h1, h2, fun s hs heq => h3 s hs heq.symm⟩

/-- C8: `deleteState` is idempotent: deleting the same key set from the
result of a first deletion changes nothing, so a second call (when some or
all targeted rows are already gone) completes with the same store and no
error. -/
theorem c8_deleteState_idempotent (db : List Row) (X : String) (S : List String) :
    deleteState (deleteState db X S) X S = deleteState db X S := by
  simp only [deleteState, List.filter_filter, Bool.and_self]

/-- C9: `setState` of a nil state (JavaScript `undefined`, modelled `none`,
or JSON `null`) is the same operation as `setState` of the Session
Factory's default document for the id. -/
theorem c9_setState_nil_is_default (isLite : Bool) (now : Nat) (db : List Row) (X : String) :
    setState isLite now db X none = setState isLite now db X (some (createEmptyState X)) ∧
    setState isLite now db X (some JVal.null) =
      setState isLite now db X (some (createEmptyState X)) :=
  ⟨rfl, rfl⟩

/-- C10: when creations persist (which the store model guarantees) and the
expiry hook reports freshly created sessions as not expired, `getState`
terminates after at most one retry: two units of fuel already compute the
final answer (more fuel does not change it) and the fuel bound is never the
reported outcome. -/
theorem c10_getState_fuel_two_suffices (isExp : Row → Bool) (now : Nat)
    (hfresh : ∀ Y, isExp (freshSessionRow Y now) = false) (db : List Row) (X : String)
    (f : Nat) :
    getState isExp now (f + 2) db X = getState isExp now 2 db X ∧
    getState isExp now 2 db X ≠ .error .outOfFuel := by
  cases hfs : findSession db X with
  | none =>
    have h1 := getState_run_absent isExp now db X f hfs (hfresh X)
    have h2 := getState_run_absent isExp now db X 0 hfs (hfresh X)
    rw [h1, show (2 : Nat) = 0 + 2 from rfl, h2]
    exact ⟨rfl, by simp⟩
  | some r =>
    cases hexp : isExp r with
    | true =>
      have h1 := getState_run_expired isExp now db X r (f + 1) hfs hexp
      have h2 := getState_run_expired isExp now db X r 1 hfs hexp
      rw [show f + 2 = (f + 1) + 1 from rfl, h1, show (2 : Nat) = 1 + 1 from rfl, h2]
      exact ⟨rfl, by simp⟩
    | false =>
      have h1 := getState_run_present isExp now db X r (f + 1) hfs hexp
      have h2 := getState_run_present isExp now db X r 1 hfs hexp
      rw [show f + 2 = (f + 1) + 1 from rfl, h1, show (2 : Nat) = 1 + 1 from rfl, h2]
      refine ⟨rfl, ?_⟩
      cases jsonParse r.state <;> simp

theorem c10_witness :
    getState isExpiredDefault 7 3 [] "a" = getState isExpiredDefault 7 2 [] "a" ∧
    getState isExpiredDefault 7 2 [] "a" ≠ .error .outOfFuel :=
  c10_getState_fuel_two_suffices isExpiredDefault 7 (fun _ => rfl) [] "a" 1

end DialogState

